import Mathlib

/-!
# OpenSeer pipeline — formal model and verification

Shallow embedding of `src/openseer.py`, a three-step pipeline:
fetch (`query_api`) → parse (`parse_data`) → aggregate (`plot_data`),
plus the top-K slice taken in `main`.

Python JSON values are modelled by the inductive type `Json`.  Python
`dict` subscription (`d[k]`, raising on a missing key or a non-dict
receiver) is modelled by `getItem` returning `Option`.  The bare
`try/except` + `print` + `sys.exit()` paths are modelled by `Except`
(for `parse_data`) and by an explicit `RunOutcome` (for `query_api`,
which distinguishes the graceful print-and-exit path from an uncaught
exception raised by `response.json()` on an undecodable body).

`pandas.Series.value_counts()` (used by `plot_data` on the
`NFT_Group_Name` column) is modelled per its documented behaviour:
`NaN`/`None` entries are dropped (`dropna=True` default), the remaining
values are counted, and the resulting (value, count) pairs are returned
sorted descending by count with ties in order of first appearance in
the column.  `counts.iloc[0:top_selling]` is modelled by `List.take`,
which is total like positional slicing.
-/

/-- A Python/JSON value as decoded by `response.json()`. -/
inductive Json where
  | null : Json
  | bool (b : Bool) : Json
  | num (n : Int) : Json
  | str (s : String) : Json
  | arr (items : List Json) : Json
  | obj (fields : List (String × Json)) : Json

mutual

/-- Structural equality on `Json` values (Python `==` on decoded JSON). -/
def Json.beq : Json → Json → Bool
  | .null, .null => true
  | .bool a, .bool b => a == b
  | .num a, .num b => a == b
  | .str a, .str b => a == b
  | .arr as, .arr bs => Json.beqList as bs
  | .obj as, .obj bs => Json.beqFields as bs
  | _, _ => false

/-- Elementwise equality of `Json` lists. -/
def Json.beqList : List Json → List Json → Bool
  | [], [] => true
  | a :: as, b :: bs => Json.beq a b && Json.beqList as bs
  | _, _ => false

/-- Elementwise equality of `Json` object field lists. -/
def Json.beqFields : List (String × Json) → List (String × Json) → Bool
  | [], [] => true
  | (k, a) :: as, (k2, b) :: bs => k == k2 && Json.beq a b && Json.beqFields as bs
  | _, _ => false

end

mutual

theorem Json.beq_refl : (a : Json) → Json.beq a a = true
  | .null => rfl
  | .bool b => by simp [Json.beq]
  | .num n => by simp [Json.beq]
  | .str s => by simp [Json.beq]
  | .arr as => by simp [Json.beq, Json.beqList_refl as]
  | .obj fs => by simp [Json.beq, Json.beqFields_refl fs]

theorem Json.beqList_refl : (as : List Json) → Json.beqList as as = true
  | [] => rfl
  | a :: as => by simp [Json.beqList, Json.beq_refl a, Json.beqList_refl as]

theorem Json.beqFields_refl : (fs : List (String × Json)) → Json.beqFields fs fs = true
  | [] => rfl
  | (k, a) :: fs => by simp [Json.beqFields, Json.beq_refl a, Json.beqFields_refl fs]

end

mutual

theorem Json.eq_of_beq : {a b : Json} → Json.beq a b = true → a = b
  | .null, .null, _ => rfl
  | .bool a, .bool b, h => by simp [Json.beq] at h; simp [h]
  | .num a, .num b, h => by simp [Json.beq] at h; simp [h]
  | .str a, .str b, h => by simp [Json.beq] at h; simp [h]
  | .arr as, .arr bs, h => by
      simp only [Json.beq] at h
      simp [Json.eqList_of_beq h]
  | .obj as, .obj bs, h => by
      simp only [Json.beq] at h
      simp [Json.eqFields_of_beq h]

theorem Json.eqList_of_beq : {as bs : List Json} → Json.beqList as bs = true → as = bs
  | [], [], _ => rfl
  | a :: as, b :: bs, h => by
      simp only [Json.beqList, Bool.and_eq_true] at h
      simp [Json.eq_of_beq h.1, Json.eqList_of_beq h.2]

theorem Json.eqFields_of_beq : {as bs : List (String × Json)} → Json.beqFields as bs = true → as = bs
  | [], [], _ => rfl
  | (k, a) :: as, (k2, b) :: bs, h => by
      simp only [Json.beqFields, Bool.and_eq_true] at h
      obtain ⟨⟨hk, ha⟩, hs⟩ := h
      simp at hk
      simp [hk, Json.eq_of_beq ha, Json.eqFields_of_beq hs]

end

instance : BEq Json := ⟨Json.beq⟩

instance : LawfulBEq Json where
  eq_of_beq := Json.eq_of_beq
  rfl := Json.beq_refl _

instance : DecidableEq Json := fun a b =>
  decidable_of_iff (Json.beq a b = true) ⟨Json.eq_of_beq, fun h => h ▸ Json.beq_refl a⟩

/-! ## Fetcher: `query_api` (openseer.py lines 10-52) -/

/-- Outcome of decoding the HTTP response body: `response.json()` either
raises (empty or malformed body) or returns a decoded value. -/
inductive DecodedBody where
  | undecodable : DecodedBody
  | value (j : Json) : DecodedBody

/-- Outcome of one pipeline step in the hosting process: an uncaught
exception, a `print` of a message followed by `sys.exit()`, or a value. -/
inductive RunOutcome (α : Type) where
  | raised (exn : String) : RunOutcome α
  | exited (msg : String) : RunOutcome α
  | ok (a : α) : RunOutcome α
deriving DecidableEq

/-- Message printed by `query_api` on its graceful-exit path. -/
def fetchErrorMessage : String :=
  "Unable to get data. Try lowering the number of sales requested or waiting a few minutes."

/-- Model of `query_api` after the GET request: `response_data = response.json()`
(raises on an undecodable body, uncaught); then `if response_data is None:`
print the message and `sys.exit()`; otherwise return `response_data`. -/
def query_api (body : DecodedBody) : RunOutcome Json :=
  match body with
  | .undecodable => .raised "JSONDecodeError"
  | .value .null => .exited fetchErrorMessage
  | .value j => .ok j

/-! ## Parser: `parse_data` (openseer.py lines 55-116) -/

/-- Python subscription `j[k]` with a string key: yields the value when
`j` is a dict containing `k` (for duplicate keys in the raw field list,
the last occurrence wins, as in a Python dict built by `json.loads`);
any other case raises (`KeyError`/`TypeError`), modelled as `none`. -/
def getItem (j : Json) (k : String) : Option Json :=
  match j with
  | .obj fields => (fields.reverse.find? (fun kv => kv.1 == k)).map Prod.snd
  | _ => none

/-- Python iteration `for item in j`: a list yields its items, a string
yields its one-character substrings, a dict yields its keys; `None`,
numbers and booleans are not iterable (`TypeError`), modelled as `none`. -/
def iterItems (j : Json) : Option (List Json) :=
  match j with
  | .arr items => some items
  | .str s => some (s.toList.map (fun c => Json.str (String.singleton c)))
  | .obj fields => some (fields.map (fun kv => Json.str kv.1))
  | _ => none

/-- The event items looped over: `for item in sales_data['asset_events']`. -/
def getEventsItems (sales_data : Json) : Option (List Json) :=
  (getItem sales_data "asset_events").bind iterItems

/-- The collection name of one event: `item['asset']['collection']['name']`. -/
def extractName (item : Json) : Option Json := do
  let asset ← getItem item "asset"
  let coll ← getItem asset "collection"
  getItem coll "name"

/-- The creation date of one event: `item["created_date"]`. -/
def extractDate (item : Json) : Option Json := getItem item "created_date"

/-- One iteration of the parse loop body: both appends succeed or the
iteration raises. -/
def extractRow (item : Json) : Option (Json × Json) := do
  let n ← extractName item
  let d ← extractDate item
  pure (n, d)

/-- The parse loop: builds `asset_name_list` and `asset_date_list` in
encounter order; the first raising iteration aborts the whole loop. -/
def parseLoop : List Json → Option (List Json × List Json)
  | [] => some ([], [])
  | item :: rest => do
      let (n, d) ← extractRow item
      let (ns, ds) ← parseLoop rest
      pure (n :: ns, d :: ds)

/-- The two-column dataframe built by `parse_data`. -/
structure DataFrame where
  transaction_date : List Json
  NFT_Group_Name : List Json
deriving DecidableEq

/-- Message printed by `parse_data` before `sys.exit()` when any part of
the `try` block raises. -/
def parseErrorMessage : String :=
  "Unable to parse the data. Try lowering the number of sales requested or waiting a few minutes."

/-- Model of `parse_data`: the `try` block subscripts `asset_events`,
loops over the items extracting name and date, and any exception anywhere
in the block is caught by the bare `except`, which prints the message and
exits (no partial result); on success the two lists become the columns
`transaction_date` and `NFT_Group_Name`. -/
def parse_data (sales_data : Json) : Except String DataFrame :=
  match getEventsItems sales_data with
  | none => .error parseErrorMessage
  | some items =>
    match parseLoop items with
    | none => .error parseErrorMessage
    | some (names, dates) =>
      .ok { transaction_date := dates, NFT_Group_Name := names }

/-! ## Aggregator: `plot_data` (openseer.py lines 119-165) -/

/-- Insert a (value, count) pair into a descending-by-count list, before
the first entry whose count does not exceed it (stable insertion). -/
def insertByCount (x : Json × Nat) : List (Json × Nat) → List (Json × Nat)
  | [] => [x]
  | y :: ys => if y.2 ≤ x.2 then x :: y :: ys else y :: insertByCount x ys

/-- Stable insertion sort, descending by count: ties keep input order. -/
def sortByCountDesc : List (Json × Nat) → List (Json × Nat)
  | [] => []
  | x :: xs => insertByCount x (sortByCountDesc xs)

/-- The distinct values of a list in order of first appearance. -/
def uniqueKeys : List Json → List Json
  | [] => []
  | x :: xs => x :: (uniqueKeys xs).filter (fun y => decide (y ≠ x))

/-- The `dropna=True` default of `value_counts`: `None` entries of the
column are excluded from the counts. -/
def dropNull (xs : List Json) : List Json :=
  xs.filter (fun x => decide (x ≠ Json.null))

/-- The unsorted (value, count) pairs of a column, keyed by the distinct
values in first-appearance order. -/
def collectionCounts (xs : List Json) : List (Json × Nat) :=
  (uniqueKeys xs).map (fun k => (k, xs.count k))

/-- Model of `pandas.Series.value_counts()` (default arguments): `None`
entries are dropped, the distinct remaining values are counted, and the
pairs are sorted descending by count, ties in first-appearance order. -/
def value_counts (xs : List Json) : List (Json × Nat) :=
  sortByCountDesc (collectionCounts (dropNull xs))

/-- Model of `plot_data`: `counts = sales_data['NFT_Group_Name'].value_counts()`
is returned; the matplotlib calls only draw and do not affect `counts`. -/
def plot_data (sales_data : DataFrame) : List (Json × Nat) :=
  value_counts sales_data.NFT_Group_Name

/-! ## Top-K slice in `main` (openseer.py lines 194-200) -/

/-- Model of `main`'s branch: `top_selling = num_sales if num_sales < 3 else 3`. -/
def top_selling (num_sales : Nat) : Nat :=
  if num_sales < 3 then num_sales else 3

/-- Model of `counts.iloc[0:top_selling]`: positional slicing from the
head, total (a short series yields all its rows). -/
def topCollections (counts : List (Json × Nat)) (num_sales : Nat) : List (Json × Nat) :=
  counts.take (top_selling num_sales)

/-- Total sales accounted for by a ranked sequence (sum of its counts). -/
def sumSales (counts : List (Json × Nat)) : Nat :=
  (counts.map (fun p => p.2)).sum

/-! ## Concrete sample inputs used by witnesses -/

/-- A well-formed event entry, as returned by the events endpoint. -/
def sampleEvent (name date : String) : Json :=
  Json.obj [("asset", Json.obj [("collection", Json.obj [("name", Json.str name)])]),
            ("created_date", Json.str date)]

/-- A well-formed response with two events in two collections. -/
def sampleSales : Json :=
  Json.obj [("asset_events", Json.arr [sampleEvent "Bored Apes" "d1", sampleEvent "Cool Cats" "d2"])]

/-- An event entry lacking the nested `asset.collection.name` path. -/
def malformedEvent : Json :=
  Json.obj [("created_date", Json.str "d3")]

/-- A response in which the second of two events is malformed. -/
def malformedSales : Json :=
  Json.obj [("asset_events", Json.arr [sampleEvent "Bored Apes" "d1", malformedEvent])]

/-- An event entry whose collection name is present but JSON `null`. -/
def nullNameEvent : Json :=
  Json.obj [("asset", Json.obj [("collection", Json.obj [("name", Json.null)])]),
            ("created_date", Json.str "d2")]

/-- A response with one named event and one `null`-named event. -/
def nullNameSales : Json :=
  Json.obj [("asset_events", Json.arr [sampleEvent "Bored Apes" "d1", nullNameEvent])]

/-- A table whose name column is the row sequence X, Y, X, Y. -/
def tieFrame : DataFrame :=
  { transaction_date := [Json.str "d1", Json.str "d2", Json.str "d3", Json.str "d4"],
    NFT_Group_Name := [Json.str "X", Json.str "Y", Json.str "X", Json.str "Y"] }

/-- A ranked sequence over five distinct collections. -/
def fiveRanked : List (Json × Nat) :=
  [(Json.str "A", 5), (Json.str "B", 4), (Json.str "C", 3), (Json.str "D", 2), (Json.str "E", 1)]

/-! ## Parser lemmas -/

theorem extractRow_eq_some {item : Json} {n d : Json}
    (h : extractRow item = some (n, d)) :
    extractName item = some n ∧ extractDate item = some d := by
  unfold extractRow at h
  cases hn : extractName item with
  | none => rw [hn] at h; simp [Option.bind] at h
  | some n0 =>
    cases hd : extractDate item with
    | none => rw [hn, hd] at h; simp [Option.bind] at h
    | some d0 =>
      rw [hn, hd] at h
      simp [Option.bind] at h
      exact ⟨by rw [h.1], by rw [h.2]⟩

theorem extractRow_none_of_bad {item : Json}
    (h : extractName item = none ∨ extractDate item = none) :
    extractRow item = none := by
  unfold extractRow
  rcases h with h | h
  · simp [h, Option.bind]
  · cases hn : extractName item <;> simp [h, Option.bind]

theorem parseLoop_none_of_bad {item : Json} :
    ∀ {items : List Json}, item ∈ items → extractRow item = none →
      parseLoop items = none := by
  intro items hmem hbad
  induction items with
  | nil => simp at hmem
  | cons it rest ih =>
    rcases List.mem_cons.mp hmem with heq | hmem'
    · subst heq
      simp [parseLoop, hbad, Option.bind]
    · cases hr : extractRow it with
      | none => simp [parseLoop, hr, Option.bind]
      | some nd => simp [parseLoop, hr, Option.bind, ih hmem']

theorem parseLoop_spec :
    ∀ {items ns ds : List Json}, parseLoop items = some (ns, ds) →
      ns.length = items.length ∧ ds.length = items.length ∧
      (∀ i : Nat, (items[i]?.bind extractName) = ns[i]?) ∧
      (∀ i : Nat, (items[i]?.bind extractDate) = ds[i]?) := by
  intro items
  induction items with
  | nil =>
    intro ns ds h
    simp [parseLoop] at h
    obtain ⟨hns, hds⟩ := h
    subst hns; subst hds
    refine ⟨rfl, rfl, ?_, ?_⟩ <;> intro i <;> simp
  | cons it rest ih =>
    intro ns ds h
    cases hr : extractRow it with
    | none => rw [parseLoop, hr] at h; simp [Option.bind] at h
    | some nd =>
      obtain ⟨n, d⟩ := nd
      cases hrest : parseLoop rest with
      | none => rw [parseLoop, hr, hrest] at h; simp [Option.bind] at h
      | some nsds =>
        obtain ⟨ns0, ds0⟩ := nsds
        rw [parseLoop, hr, hrest] at h
        simp [Option.bind] at h
        obtain ⟨hns, hds⟩ := h
        obtain ⟨hname, hdate⟩ := extractRow_eq_some hr
        obtain ⟨ih1, ih2, ih3, ih4⟩ := ih hrest
        subst hns; subst hds
        refine ⟨by simp [ih1], by simp [ih2], ?_, ?_⟩ <;> intro i <;> cases i with
        | zero => simpa using by first | exact hname | exact hdate
        | succ j => simpa using by first | exact ih3 j | exact ih4 j

theorem parseLoop_isSome :
    ∀ {items : List Json}, (∀ item ∈ items, (extractRow item).isSome) →
      (parseLoop items).isSome := by
  intro items
  induction items with
  | nil => intro _; simp [parseLoop]
  | cons it rest ih =>
    intro h
    have h1 : (extractRow it).isSome := h it (List.mem_cons_self it rest)
    have h2 := ih (fun x hx => h x (List.mem_cons_of_mem it hx))
    cases hr : extractRow it with
    | none => rw [hr] at h1; simp at h1
    | some nd =>
      cases hrest : parseLoop rest with
      | none => rw [hrest] at h2; simp at h2
      | some nsds => simp [parseLoop, hr, hrest, Option.bind]

/-! ## Claim theorems: fetcher, parser, top-K -/

/-- C2 (code_bug evidence): an HTTP response body that cannot be decoded
makes `response.json()` raise, and `query_api` propagates that exception
uncaught — it does not reach the graceful path that prints the
user-facing "lower the number of sales / wait" message.  Only a body
decoding to `None` is handled gracefully. -/
theorem query_api_undecodable_raises :
    query_api DecodedBody.undecodable = RunOutcome.raised "JSONDecodeError" ∧
    query_api DecodedBody.undecodable ≠ RunOutcome.exited fetchErrorMessage ∧
    query_api (DecodedBody.value Json.null) = RunOutcome.exited fetchErrorMessage := by
  refine ⟨rfl, ?_, rfl⟩
  intro h
  exact RunOutcome.noConfusion h

/-- C3: if any single event entry lacks the `created_date` field or the
nested `asset.collection.name` path, the whole parse fails with the
user-facing message and yields no partial table. -/
theorem parse_data_all_or_nothing (sales_data item : Json) (items : List Json)
    (hitems : getEventsItems sales_data = some items)
    (hmem : item ∈ items)
    (hbad : extractName item = none ∨ extractDate item = none) :
    parse_data sales_data = Except.error parseErrorMessage := by
  have hloop := parseLoop_none_of_bad hmem (extractRow_none_of_bad hbad)
  simp [parse_data, hitems, hloop]

/-- C3 witness: a batch of one well-formed and one malformed event fails
as a whole. -/
theorem parse_data_all_or_nothing_witness :
    parse_data malformedSales = Except.error parseErrorMessage :=
  parse_data_all_or_nothing malformedSales malformedEvent
    [sampleEvent "Bored Apes" "d1", malformedEvent] rfl (by decide) (Or.inl rfl)

/-- C5: a successful parse yields the two-column table (`transaction_date`,
`NFT_Group_Name` — the only columns of `DataFrame`), with one row per
event entry of the `asset_events` list, in encounter order. -/
theorem parse_data_table_shape (sales_data : Json) (df : DataFrame)
    (h : parse_data sales_data = Except.ok df) :
    ∃ items, getEventsItems sales_data = some items ∧
      df.NFT_Group_Name.length = items.length ∧
      df.transaction_date.length = items.length ∧
      (∀ i : Nat, (items[i]?.bind extractName) = df.NFT_Group_Name[i]?) ∧
      (∀ i : Nat, (items[i]?.bind extractDate) = df.transaction_date[i]?) := by
  cases hitems : getEventsItems sales_data with
  | none => simp only [parse_data, hitems] at h; exact absurd h (by simp)
  | some items =>
    cases hloop : parseLoop items with
    | none => simp only [parse_data, hitems, hloop] at h; exact absurd h (by simp)
    | some nsds =>
      obtain ⟨ns, ds⟩ := nsds
      simp only [parse_data, hitems, hloop] at h
      obtain ⟨h1, h2, h3, h4⟩ := parseLoop_spec hloop
      cases h
      exact ⟨items, rfl, h1, h2, h3, h4⟩

/-- C5 witness: the shape property at a concrete two-event response. -/
theorem parse_data_table_shape_witness :
    ∃ items, getEventsItems sampleSales = some items ∧
      (DataFrame.mk [Json.str "d1", Json.str "d2"]
        [Json.str "Bored Apes", Json.str "Cool Cats"]).NFT_Group_Name.length = items.length ∧
      (DataFrame.mk [Json.str "d1", Json.str "d2"]
        [Json.str "Bored Apes", Json.str "Cool Cats"]).transaction_date.length = items.length ∧
      (∀ i : Nat, (items[i]?.bind extractName) =
        (DataFrame.mk [Json.str "d1", Json.str "d2"]
          [Json.str "Bored Apes", Json.str "Cool Cats"]).NFT_Group_Name[i]?) ∧
      (∀ i : Nat, (items[i]?.bind extractDate) =
        (DataFrame.mk [Json.str "d1", Json.str "d2"]
          [Json.str "Bored Apes", Json.str "Cool Cats"]).transaction_date[i]?) :=
  parse_data_table_shape sampleSales
    (DataFrame.mk [Json.str "d1", Json.str "d2"]
      [Json.str "Bored Apes", Json.str "Cool Cats"]) rfl

/-- C8: parsing is deterministic — two invocations on the same raw
structure return the same table (the code keeps no state between runs:
both list accumulators are freshly created inside each call). -/
theorem parse_data_deterministic (j1 j2 : Json) (h : j1 = j2) :
    parse_data j1 = parse_data j2 := by rw [h]

/-- C8 witness: two runs on the concrete sample agree. -/
theorem parse_data_deterministic_witness :
    parse_data sampleSales = parse_data sampleSales :=
  parse_data_deterministic sampleSales sampleSales rfl

/-- C4: the table whose name column is A, B, A, C, B, A aggregates to
the ranked output (A,3), (B,2), (C,1) in exactly that order, for any
date column. -/
theorem plot_data_ranked_example (dates : List Json) :
    plot_data { transaction_date := dates,
                NFT_Group_Name := [Json.str "A", Json.str "B", Json.str "A",
                                   Json.str "C", Json.str "B", Json.str "A"] } =
      [(Json.str "A", 3), (Json.str "B", 2), (Json.str "C", 1)] := rfl

/-- C7: the empty table aggregates to the empty ranked sequence. -/
theorem plot_data_empty :
    plot_data { transaction_date := [], NFT_Group_Name := [] } = [] := rfl

/-- C6: for `num_sales` in the form's range, the slice shown under
"Top ... Collections" is exactly the first `min 3 num_sales` entries of
the ranked sequence. -/
theorem topCollections_is_min_slice (counts : List (Json × Nat)) (num_sales : Nat)
    (h1 : 1 ≤ num_sales) (h2 : num_sales ≤ 300) :
    topCollections counts num_sales = counts.take (min 3 num_sales) := by
  unfold topCollections top_selling
  rcases Nat.lt_or_ge num_sales 3 with h | h
  · rw [if_pos h, Nat.min_eq_right (Nat.le_of_lt h)]
  · rw [if_neg (Nat.not_lt.mpr h), Nat.min_eq_left h]

/-- C6 witness: for `num_sales = 2` over five distinct ranked
collections, exactly the top two rows are kept. -/
theorem topCollections_is_min_slice_witness :
    1 ≤ 2 ∧ 2 ≤ 300 ∧
      topCollections fiveRanked 2 = fiveRanked.take (min 3 2) :=
  ⟨by decide, by decide, topCollections_is_min_slice fiveRanked 2 (by decide) (by decide)⟩

/-- C10: when the ranked sequence has fewer distinct collections than
the top-K bound, the positional slice returns all of them — slicing past
the end is total. -/
theorem topCollections_short_total (counts : List (Json × Nat)) (num_sales : Nat)
    (h : counts.length < top_selling num_sales) :
    topCollections counts num_sales = counts :=
  List.take_of_length_le (Nat.le_of_lt h)

/-- C10 witness: one distinct collection, `num_sales = 5`, bound 3. -/
theorem topCollections_short_total_witness :
    [(Json.str "A", 1)].length < top_selling 5 ∧
      topCollections [(Json.str "A", 1)] 5 = [(Json.str "A", 1)] :=
  ⟨by decide, topCollections_short_total [(Json.str "A", 1)] 5 (by decide)⟩

/-! ## Aggregator lemmas: order and stability of `value_counts` -/

theorem findIdx_map_eq {α β : Type} (f : α → β) (p : β → Bool) :
    ∀ l : List α, (l.map f).findIdx p = l.findIdx (fun x => p (f x))
  | [] => rfl
  | x :: xs => by
      cases h : p (f x) <;>
        simp [List.findIdx_cons, h, findIdx_map_eq f p xs]

theorem findIdx_filter_lt {α : Type} [BEq α] [LawfulBEq α] {p : α → Bool} {a b : α} :
    ∀ {l : List α}, a ∈ l → p a = true → p b = true →
      l.findIdx (fun x => x == a) < l.findIdx (fun x => x == b) →
      (l.filter p).findIdx (fun x => x == a) < (l.filter p).findIdx (fun x => x == b) := by
  intro l
  induction l with
  | nil => intro h; simp at h
  | cons x t ih =>
    intro hmem hpa hpb hlt
    cases hxa : x == a with
    | true =>
      have hx : x = a := eq_of_beq hxa
      have hpx : p x = true := hx ▸ hpa
      have hxb : (x == b) = false := by
        cases hxb : x == b with
        | true =>
          rw [List.findIdx_cons, hxa, List.findIdx_cons, hxb] at hlt
          simp at hlt
        | false => rfl
      rw [List.filter_cons_of_pos hpx]
      rw [List.findIdx_cons, hxa, List.findIdx_cons, hxb]
      simp
    | false =>
      cases hxb : x == b with
      | true =>
        rw [List.findIdx_cons, hxa, List.findIdx_cons, hxb] at hlt
        simp at hlt
      | false =>
        rw [List.findIdx_cons, hxa, List.findIdx_cons, hxb] at hlt
        simp only [cond_false] at hlt
        have hlt' := Nat.lt_of_succ_lt_succ hlt
        have hamem : a ∈ t := by
          rcases List.mem_cons.mp hmem with he | hm
          · exact absurd (he ▸ hxa) (by simp)
          · exact hm
        have ihh := ih hamem hpa hpb hlt'
        cases hpx : p x with
        | true =>
          rw [List.filter_cons_of_pos hpx]
          rw [List.findIdx_cons, hxa, List.findIdx_cons, hxb]
          simpa using Nat.succ_lt_succ ihh
        | false =>
          rw [List.filter_cons_of_neg (by simp [hpx])]
          exact ihh

theorem mem_uniqueKeys {a : Json} : ∀ (l : List Json), a ∈ uniqueKeys l ↔ a ∈ l
  | [] => Iff.rfl
  | x :: xs => by
      simp only [uniqueKeys, List.mem_cons, List.mem_filter, mem_uniqueKeys xs,
        decide_eq_true_eq]
      by_cases h : a = x
      · simp [h]
      · simp [h]

theorem nodup_uniqueKeys : ∀ l : List Json, (uniqueKeys l).Nodup
  | [] => List.nodup_nil
  | x :: xs => by
      refine List.nodup_cons.mpr ⟨?_, List.Nodup.filter _ (nodup_uniqueKeys xs)⟩
      intro hmem
      have h := (List.mem_filter.mp hmem).2
      simp at h

theorem uniqueKeys_order {a b : Json} :
    ∀ {l : List Json}, a ∈ l →
      l.findIdx (fun x => x == a) < l.findIdx (fun x => x == b) →
      (uniqueKeys l).findIdx (fun x => x == a) < (uniqueKeys l).findIdx (fun x => x == b) := by
  intro l
  induction l with
  | nil => intro h; simp at h
  | cons x xs ih =>
    intro hmem hlt
    cases hxa : x == a with
    | true =>
      have hxb : (x == b) = false := by
        cases hxb : x == b with
        | true =>
          rw [List.findIdx_cons, hxa, List.findIdx_cons, hxb] at hlt
          simp at hlt
        | false => rfl
      show List.findIdx _ (x :: _) < List.findIdx _ (x :: _)
      rw [List.findIdx_cons, hxa, List.findIdx_cons, hxb]
      simp
    | false =>
      cases hxb : x == b with
      | true =>
        rw [List.findIdx_cons, hxa, List.findIdx_cons, hxb] at hlt
        simp at hlt
      | false =>
        rw [List.findIdx_cons, hxa, List.findIdx_cons, hxb] at hlt
        simp only [cond_false] at hlt
        have hlt' := Nat.lt_of_succ_lt_succ hlt
        have hamem : a ∈ xs := by
          rcases List.mem_cons.mp hmem with he | hm
          · exact absurd (he ▸ hxa) (by simp)
          · exact hm
        have ihh := ih hamem hlt'
        have hfa : (decide (a ≠ x)) = true := by
          simp
          intro he
          exact absurd (he ▸ hxa) (by simp)
        have hfb : (decide (b ≠ x)) = true := by
          simp
          intro he
          exact absurd (he ▸ hxb) (by simp)
        have hamem' : a ∈ uniqueKeys xs := (mem_uniqueKeys xs).mpr hamem
        have hstep : ((uniqueKeys xs).filter (fun y => decide (y ≠ x))).findIdx (fun z => z == a) <
            ((uniqueKeys xs).filter (fun y => decide (y ≠ x))).findIdx (fun z => z == b) :=
          findIdx_filter_lt hamem' hfa hfb ihh
        show List.findIdx _ (x :: _) < List.findIdx _ (x :: _)
        rw [List.findIdx_cons, hxa, List.findIdx_cons, hxb]
        simpa using Nat.succ_lt_succ hstep

theorem sublist_insertByCount (x : Json × Nat) :
    ∀ l : List (Json × Nat), l.Sublist (insertByCount x l)
  | [] => List.nil_sublist _
  | y :: ys => by
      unfold insertByCount
      by_cases h : y.2 ≤ x.2
      · rw [if_pos h]
        exact List.sublist_cons_self x (y :: ys)
      · rw [if_neg h]
        exact List.Sublist.cons₂ y (sublist_insertByCount x ys)

theorem insertByCount_perm (x : Json × Nat) :
    ∀ l : List (Json × Nat), (insertByCount x l).Perm (x :: l)
  | [] => List.Perm.refl _
  | y :: ys => by
      unfold insertByCount
      by_cases h : y.2 ≤ x.2
      · rw [if_pos h]
      · rw [if_neg h]
        exact ((insertByCount_perm x ys).cons y).trans (List.Perm.swap x y ys)

theorem sortByCountDesc_perm : ∀ l : List (Json × Nat), (sortByCountDesc l).Perm l
  | [] => List.Perm.refl _
  | x :: xs =>
      (insertByCount_perm x (sortByCountDesc xs)).trans ((sortByCountDesc_perm xs).cons x)

theorem insertByCount_before (x q : Json × Nat) (hq2 : q.2 ≤ x.2) :
    ∀ {l : List (Json × Nat)}, q ∈ l → List.Sublist [x, q] (insertByCount x l) := by
  intro l
  induction l with
  | nil => intro h; simp at h
  | cons y ys ih =>
    intro hmem
    unfold insertByCount
    by_cases h : y.2 ≤ x.2
    · rw [if_pos h]
      exact List.Sublist.cons₂ x (List.singleton_sublist.mpr hmem)
    · rw [if_neg h]
      have hqy : q ≠ y := by
        intro he
        exact h (he ▸ hq2)
      have hqys : q ∈ ys := (List.mem_cons.mp hmem).resolve_left hqy
      exact List.Sublist.cons y (ih hqys)

theorem sortByCountDesc_stable (p q : Json × Nat) (hq2 : q.2 ≤ p.2) :
    ∀ {l : List (Json × Nat)}, List.Sublist [p, q] l →
      List.Sublist [p, q] (sortByCountDesc l) := by
  intro l
  induction l with
  | nil => intro h; simp at h
  | cons x xs ih =>
    intro h
    cases h with
    | cons _ h2 =>
      exact (ih h2).trans (sublist_insertByCount x (sortByCountDesc xs))
    | cons₂ _ h2 =>
      have hqmem : q ∈ sortByCountDesc xs :=
        ((sortByCountDesc_perm xs).mem_iff).mpr (List.singleton_sublist.mp h2)
      exact insertByCount_before p q hq2 hqmem

theorem keyIdx_lt_of_sublist (a b : Json) (hab : a ≠ b) :
    ∀ {l : List (Json × Nat)} {n m : Nat}, (l.map Prod.fst).Nodup →
      List.Sublist [(a, n), (b, m)] l →
      l.findIdx (fun p => p.1 == a) < l.findIdx (fun p => p.1 == b) := by
  intro l
  induction l with
  | nil => intro n m _ h; simp at h
  | cons x xs ih =>
    intro n m hnd hsub
    rw [List.map_cons] at hnd
    obtain ⟨hx, hndx⟩ := List.nodup_cons.mp hnd
    cases hsub with
    | cons _ h2 =>
      have hamem : (a, n) ∈ xs := h2.subset (List.mem_cons_self _ _)
      have hbmem : (b, m) ∈ xs := h2.subset (List.mem_cons_of_mem _ (List.mem_cons_self _ _))
      have hxa : (x.1 == a) = false := by
        cases hxa : x.1 == a with
        | true =>
          exact absurd ((eq_of_beq hxa) ▸ List.mem_map_of_mem Prod.fst hamem) hx
        | false => rfl
      have hxb : (x.1 == b) = false := by
        cases hxb : x.1 == b with
        | true =>
          exact absurd ((eq_of_beq hxb) ▸ List.mem_map_of_mem Prod.fst hbmem) hx
        | false => rfl
      rw [List.findIdx_cons, hxa, List.findIdx_cons, hxb]
      simpa using Nat.succ_lt_succ (ih hndx h2)
    | cons₂ _ h2 =>
      have hxa : ((a, n).1 == a) = true := by simp
      have hxb : ((a, n).1 == b) = false := by
        simpa using hab
      rw [List.findIdx_cons, hxa, List.findIdx_cons, hxb]
      simp

theorem sublist_of_keyIdx_lt (a b : Json) :
    ∀ {l : List (Json × Nat)} {n m : Nat}, (l.map Prod.fst).Nodup →
      (a, n) ∈ l → (b, m) ∈ l →
      l.findIdx (fun p => p.1 == a) < l.findIdx (fun p => p.1 == b) →
      List.Sublist [(a, n), (b, m)] l := by
  intro l
  induction l with
  | nil => intro n m _ ha _ _; simp at ha
  | cons x xs ih =>
    intro n m hnd ha hb hlt
    rw [List.map_cons] at hnd
    obtain ⟨hx, hndx⟩ := List.nodup_cons.mp hnd
    cases hxa : x.1 == a with
    | true =>
      have hxeq : x = (a, n) := by
        rcases List.mem_cons.mp ha with he | hm
        · exact he.symm
        · exact absurd ((eq_of_beq hxa) ▸ List.mem_map_of_mem Prod.fst hm) hx
      have hxb : (x.1 == b) = false := by
        cases hxb : x.1 == b with
        | true =>
          rw [List.findIdx_cons, hxa, List.findIdx_cons, hxb] at hlt
          simp at hlt
        | false => rfl
      have hbmem : (b, m) ∈ xs := by
        rcases List.mem_cons.mp hb with he | hm
        · rw [← he] at hxb
          simp at hxb
        · exact hm
      rw [hxeq]
      exact List.Sublist.cons₂ _ (List.singleton_sublist.mpr hbmem)
    | false =>
      cases hxb : x.1 == b with
      | true =>
        rw [List.findIdx_cons, hxa, List.findIdx_cons, hxb] at hlt
        simp at hlt
      | false =>
        rw [List.findIdx_cons, hxa, List.findIdx_cons, hxb] at hlt
        simp only [cond_false] at hlt
        have hamem : (a, n) ∈ xs := by
          rcases List.mem_cons.mp ha with he | hm
          · rw [← he] at hxa; simp at hxa
          · exact hm
        have hbmem : (b, m) ∈ xs := by
          rcases List.mem_cons.mp hb with he | hm
          · rw [← he] at hxb; simp at hxb
          · exact hm
        exact List.Sublist.cons x (ih hndx hamem hbmem (Nat.lt_of_succ_lt_succ hlt))

theorem collectionCounts_keys (xs : List Json) :
    (collectionCounts xs).map Prod.fst = uniqueKeys xs := by
  unfold collectionCounts
  rw [List.map_map]
  exact List.map_id _

theorem collectionCounts_findIdx (a : Json) (xs : List Json) :
    (collectionCounts xs).findIdx (fun p => p.1 == a) =
      (uniqueKeys xs).findIdx (fun k => k == a) := by
  unfold collectionCounts
  rw [findIdx_map_eq]

theorem mem_collectionCounts {a : Json} {xs : List Json} (h : a ∈ uniqueKeys xs) :
    (a, xs.count a) ∈ collectionCounts xs :=
  List.mem_map_of_mem _ h

/-- C1: in any input table, two distinct non-null collection names with
equal (positive) row counts appear in the ranked output of the
aggregation in the order of their first appearance in the input rows. -/
theorem plot_data_ties_first_seen (df : DataFrame) (a b : Json)
    (hna : a ≠ Json.null) (hnb : b ≠ Json.null) (hab : a ≠ b)
    (hpos : 0 < df.NFT_Group_Name.count a)
    (hcnt : df.NFT_Group_Name.count a = df.NFT_Group_Name.count b)
    (hfirst : df.NFT_Group_Name.findIdx (fun x => x == a) <
      df.NFT_Group_Name.findIdx (fun x => x == b)) :
    (plot_data df).findIdx (fun p => p.1 == a) <
      (plot_data df).findIdx (fun p => p.1 == b) := by
  have pa : decide (a ≠ Json.null) = true := by simpa using hna
  have pb : decide (b ≠ Json.null) = true := by simpa using hnb
  have hca : (dropNull df.NFT_Group_Name).count a = df.NFT_Group_Name.count a :=
    List.count_filter pa
  have hcb : (dropNull df.NFT_Group_Name).count b = df.NFT_Group_Name.count b :=
    List.count_filter pb
  have ha_ns : a ∈ df.NFT_Group_Name := List.count_pos_iff.mp hpos
  have ha_vs : a ∈ dropNull df.NFT_Group_Name := by
    refine List.count_pos_iff.mp ?_
    rw [hca]
    exact hpos
  have h1 : (dropNull df.NFT_Group_Name).findIdx (fun x => x == a) <
      (dropNull df.NFT_Group_Name).findIdx (fun x => x == b) :=
    findIdx_filter_lt ha_ns pa pb hfirst
  have h2 := uniqueKeys_order ha_vs h1
  have h3 : (collectionCounts (dropNull df.NFT_Group_Name)).findIdx (fun p => p.1 == a) <
      (collectionCounts (dropNull df.NFT_Group_Name)).findIdx (fun p => p.1 == b) := by
    rw [collectionCounts_findIdx, collectionCounts_findIdx]
    exact h2
  have hnd : ((collectionCounts (dropNull df.NFT_Group_Name)).map Prod.fst).Nodup := by
    rw [collectionCounts_keys]
    exact nodup_uniqueKeys _
  have hma : (a, (dropNull df.NFT_Group_Name).count a) ∈
      collectionCounts (dropNull df.NFT_Group_Name) :=
    mem_collectionCounts ((mem_uniqueKeys _).mpr ha_vs)
  have hb_vs : b ∈ dropNull df.NFT_Group_Name := by
    refine List.count_pos_iff.mp ?_
    rw [hcb, ← hcnt]
    exact hpos
  have hmb : (b, (dropNull df.NFT_Group_Name).count b) ∈
      collectionCounts (dropNull df.NFT_Group_Name) :=
    mem_collectionCounts ((mem_uniqueKeys _).mpr hb_vs)
  have hsub := sublist_of_keyIdx_lt a b hnd hma hmb h3
  have hle : (b, (dropNull df.NFT_Group_Name).count b).2 ≤
      (a, (dropNull df.NFT_Group_Name).count a).2 := by
    show (dropNull df.NFT_Group_Name).count b ≤ (dropNull df.NFT_Group_Name).count a
    rw [hcb, hca, hcnt]
  have hsorted := sortByCountDesc_stable _ _ hle hsub
  have hnd2 : ((sortByCountDesc (collectionCounts (dropNull df.NFT_Group_Name))).map
      Prod.fst).Nodup :=
    (((sortByCountDesc_perm _).map Prod.fst).nodup_iff).mpr hnd
  exact keyIdx_lt_of_sublist a b hab hnd2 hsorted

/-- C1 witness: the column X, Y, X, Y ranks X (first seen) before Y. -/
theorem plot_data_ties_first_seen_witness :
    tieFrame.NFT_Group_Name.count (Json.str "X") =
      tieFrame.NFT_Group_Name.count (Json.str "Y") ∧
    (plot_data tieFrame).findIdx (fun p => p.1 == Json.str "X") <
      (plot_data tieFrame).findIdx (fun p => p.1 == Json.str "Y") :=
  ⟨by decide,
    plot_data_ties_first_seen tieFrame (Json.str "X") (Json.str "Y")
      (by decide) (by decide) (by decide) (by decide) (by decide) (by decide)⟩

/-! ## Aggregator lemmas: counted sales versus parsed rows -/

theorem sum_map_add (f g : Json → Nat) : ∀ l : List Json,
    (l.map (fun k => f k + g k)).sum = (l.map f).sum + (l.map g).sum
  | [] => rfl
  | x :: l => by
      simp only [List.map_cons, List.sum_cons, sum_map_add f g l]
      omega

theorem sum_map_indicator_zero (x : Json) : ∀ (keys : List Json), x ∉ keys →
    (keys.map (fun k => if x = k then 1 else 0)).sum = 0
  | [], _ => rfl
  | k :: ks, h => by
      have he : ¬x = k := fun he => h (by rw [he]; exact List.mem_cons_self k ks)
      rw [List.map_cons, List.sum_cons, if_neg he,
        sum_map_indicator_zero x ks (fun hm => h (List.mem_cons_of_mem k hm))]

theorem sum_map_indicator_one (x : Json) : ∀ (keys : List Json), keys.Nodup → x ∈ keys →
    (keys.map (fun k => if x = k then 1 else 0)).sum = 1
  | [], _, hm => absurd hm (List.not_mem_nil x)
  | k :: ks, hnd, hm => by
      obtain ⟨hk, hnd'⟩ := List.nodup_cons.mp hnd
      by_cases he : x = k
      · subst he
        rw [List.map_cons, List.sum_cons, if_pos rfl, sum_map_indicator_zero x ks hk]
      · have hm' : x ∈ ks := (List.mem_cons.mp hm).resolve_left he
        rw [List.map_cons, List.sum_cons, if_neg he, sum_map_indicator_one x ks hnd' hm']

theorem sum_counts_cover : ∀ (l keys : List Json), keys.Nodup → (∀ y ∈ l, y ∈ keys) →
    (keys.map (fun k => l.count k)).sum = l.length
  | [], keys, _, _ => by
      simp [List.count_nil]
  | x :: l, keys, hnd, hcov => by
      have hx : x ∈ keys := hcov x (List.mem_cons_self x l)
      have hcov' : ∀ y ∈ l, y ∈ keys := fun y hy => hcov y (List.mem_cons_of_mem x hy)
      calc (keys.map (fun k => (x :: l).count k)).sum
          = (keys.map (fun k => l.count k + (if x = k then 1 else 0))).sum := by
            simp only [List.count_cons, beq_iff_eq]
        _ = (keys.map (fun k => l.count k)).sum +
            (keys.map (fun k => if x = k then 1 else 0)).sum :=
            sum_map_add _ _ keys
        _ = l.length + 1 := by
            rw [sum_counts_cover l keys hnd hcov', sum_map_indicator_one x keys hnd hx]
        _ = (x :: l).length := by simp

theorem sumSales_value_counts (xs : List Json) :
    sumSales (value_counts xs) = (dropNull xs).length := by
  unfold sumSales value_counts
  have hperm : ((sortByCountDesc (collectionCounts (dropNull xs))).map (fun p => p.2)).Perm
      ((collectionCounts (dropNull xs)).map (fun p => p.2)) :=
    (sortByCountDesc_perm _).map _
  rw [hperm.sum_eq]
  unfold collectionCounts
  rw [List.map_map]
  exact sum_counts_cover (dropNull xs) (uniqueKeys (dropNull xs)) (nodup_uniqueKeys _)
    (fun y hy => (mem_uniqueKeys _).mpr hy)

theorem dropNull_length_lt {xs : List Json} (h : Json.null ∈ xs) :
    (dropNull xs).length < xs.length := by
  refine List.length_filter_lt_length_iff_exists.mpr ?_
  exact ⟨Json.null, h, by simp⟩

/-- C9: an event entry whose collection name is present but JSON `null`
still parses (a row is emitted, no error), yet `value_counts` drops the
null entry, so the ranked counts sum to strictly fewer than the number
of parsed rows. -/
theorem null_name_parses_but_uncounted (sales_data : Json) (items : List Json)
    (hitems : getEventsItems sales_data = some items)
    (hall : ∀ item ∈ items, (extractRow item).isSome)
    (hnull : ∃ item ∈ items, extractName item = some Json.null) :
    ∃ df : DataFrame, parse_data sales_data = Except.ok df ∧
      df.NFT_Group_Name.length = items.length ∧
      sumSales (plot_data df) < df.NFT_Group_Name.length := by
  have hsome := parseLoop_isSome hall
  cases hloop : parseLoop items with
  | none => rw [hloop] at hsome; simp at hsome
  | some nsds =>
    obtain ⟨ns, ds⟩ := nsds
    obtain ⟨h1, h2, h3, h4⟩ := parseLoop_spec hloop
    refine ⟨⟨ds, ns⟩, ?_, h1, ?_⟩
    · simp [parse_data, hitems, hloop]
    · obtain ⟨item, hmem, hname⟩ := hnull
      obtain ⟨i, hi⟩ := List.mem_iff_getElem?.mp hmem
      have hnsi : ns[i]? = some Json.null := by
        rw [← h3 i, hi]
        simpa using hname
      have hnullmem : Json.null ∈ ns := by
        have := List.getElem?_eq_some.mp hnsi
        obtain ⟨hlen, hval⟩ := this
        exact hval ▸ List.getElem_mem hlen
      calc sumSales (plot_data ⟨ds, ns⟩)
          = (dropNull ns).length := sumSales_value_counts ns
        _ < ns.length := dropNull_length_lt hnullmem

/-- C9 witness: a two-event batch with one null-named event parses to two
rows whose ranked counts sum to one. -/
theorem null_name_parses_but_uncounted_witness :
    ∃ df : DataFrame, parse_data nullNameSales = Except.ok df ∧
      df.NFT_Group_Name.length = [sampleEvent "Bored Apes" "d1", nullNameEvent].length ∧
      sumSales (plot_data df) < df.NFT_Group_Name.length :=
  null_name_parses_but_uncounted nullNameSales [sampleEvent "Bored Apes" "d1", nullNameEvent]
    rfl (by decide) ⟨nullNameEvent, by decide, rfl⟩
